import Mathlib

set_option synthInstance.maxSize 512

/-!
Verification development for the configuration-parsing core of `khal/cli.py`
(classes `Section`, `CalendarSection`, `SQLiteSection`, `LocaleSection`,
`DefaultSection`, `ConfigParser`, and the functions `validate` / `main_khal`).

Embedding conventions:
* A configuration file is modelled in its post-read state, i.e. as the ordered
  list of sections produced by `RawConfigParser.read`: each section is a name
  together with an ordered association list of options.  `RawConfigParser`
  lowercases option keys on read (its `optionxform`), so option keys in a
  `Conf` value are already lowercase; section names keep their case.
* Python values flowing through the parser are modelled by the inductive
  `Value` (strings, booleans, ints, timezone objects, and `None`).
* Python exceptions are modelled by `PyExc`; a function that can raise returns
  `Except PyExc _`.  `Section.parse` catches only `ConfigParserError`
  (`except ConfigParserError` in the source), so any other exception
  propagates as `Except.error`.
* `str.lower`/`str.strip` and the string slicing used by the matchers are
  modelled by the character-list functions `pyLower`/`pyStrip`/`strTake`/
  `strDrop` below (they agree with Python on the ASCII inputs exercised
  here, and they evaluate inside the kernel).
-/

/-- Python `str.lower` (ASCII case folding). -/
def pyLower (s : String) : String := ⟨s.data.map Char.toLower⟩

/-- The whitespace stripped by Python `str.strip()`. -/
def pyWS (c : Char) : Bool := c = ' ' ∨ c = '\t' ∨ c = '\n' ∨ c = '\r'

/-- Python `str.strip()`: drop leading and trailing whitespace. -/
def pyStrip (s : String) : String :=
  ⟨((s.data.dropWhile pyWS).reverse.dropWhile pyWS).reverse⟩

/-- The first `n` characters of a string (`s[:n]`). -/
def strTake (s : String) (n : Nat) : String := ⟨s.data.take n⟩

/-- The string without its first `n` characters (`s[n:]`). -/
def strDrop (s : String) (n : Nat) : String := ⟨s.data.drop n⟩

deriving instance DecidableEq for Except

/-- Python exceptions that the modelled code can raise. -/
inductive PyExc where
  | configParserError
  | unknownTimeZoneError (tz : String)
  | valueError (msg : String)
  | attributeError
  | indexError
  | keyError
deriving DecidableEq

/-- Python runtime values stored in a parsed section (`Section._parsed`). -/
inductive Value where
  | str (s : String)
  | bool (b : Bool)
  | int (n : Int)
  | tz (name : String)
  | none
deriving DecidableEq

/-- A raw section: its header name and its (lowercased-key) option list. -/
abbrev RawSection := String × List (String × String)

/-- A read configuration file: its raw sections, in file order. -/
abbrev Conf := List RawSection

/-- First-value association-list lookup (Python `dict` access). -/
def lookupKey {α : Type} (k : String) : List (String × α) → Option α
  | [] => Option.none
  | (k', v) :: rest => if k' = k then some v else lookupKey k rest

/-- Python `dict` assignment: replace the entry in place, else append. -/
def dictSet {α : Type} (d : List (String × α)) (k : String) (v : α) :
    List (String × α) :=
  match d with
  | [] => [(k, v)]
  | (k', v') :: rest => if k' = k then (k, v) :: rest else (k', v') :: dictSet rest k v

/-- `RawConfigParser.remove_option`: drop the entry for a key. -/
def removeKey {α : Type} (k : String) : List (String × α) → List (String × α)
  | [] => []
  | (k', v) :: rest =>
      if k' = k then removeKey k rest else (k', v) :: removeKey k rest

/-- Modelled from the spec: the system timezone database consulted by
`pytz.timezone` ("must resolve against the system's timezone database").
`pytz` is an external library, so a representative finite database stands in
for the system's. -/
def timezone_db : List String :=
  ["UTC", "GMT", "Europe/Berlin", "Europe/Paris", "America/New_York", "Asia/Tokyo"]

/-- Modelled from the spec: `os.path.expanduser(os.path.expandvars(x))` —
"expand user-home (`~`) and environment-variable references; never fails
(falls back to the literal string if expansion is a no-op)".  The expansion
is environment-dependent and no claim depends on it, so the no-op case (the
identity) stands in for it. -/
def expandPath (s : String) : String := s

/-- `Section._parse_bool_string`: trim, lowercase, membership in
`['true', 'yes', '1']`. -/
def parse_bool_string (value : String) : Bool :=
  let v := pyLower (pyStrip value)
  if ["true", "yes", "1"].contains v then true else false

/-- The closed command list of `Section._parse_commands`. -/
def commands_list : List String :=
  ["agenda", "calendar", "new", "interactive", "printcalendars"]

/-- `Section._parse_commands`: logs and returns `None` when the command is not
in the closed list, else returns the command itself. -/
def parse_commands (command : String) : Value :=
  if commands_list.contains command then Value.str command else Value.none

/-- Python `int(s)`: optional surrounding whitespace, optional sign, one or
more decimal digits; anything else raises `ValueError`.  (Underscore grouping
accepted by recent Python is not modelled; no claim exercises it.) -/
def pyInt (s : String) : Option Int :=
  let t := (pyStrip s).data
  let core := if t.take 1 = ['-'] ∨ t.take 1 = ['+'] then t.drop 1 else t
  let sign : Int := if t.take 1 = ['-'] then -1 else 1
  if core.length > 0 ∧ core.all (fun c => c.isDigit) then
    some (sign * (core.foldl (fun acc c => acc * 10 + (c.toNat - '0'.toNat)) 0 : Nat))
  else Option.none

/-- The coercion functions appearing in the schemas, defunctionalised. -/
inductive FilterId where
  | boolStr
  | timeZone
  | commands
  | intCoerce
  | pathExpand
deriving DecidableEq

/-- Apply a schema coercion function (`filter_` in `Section.parse`); `none`
is the identity `lambda x: x` substituted for a `None` filter. -/
def applyFilter : Option FilterId → String → Except PyExc Value
  | Option.none, s => .ok (Value.str s)
  | some .boolStr, s => .ok (Value.bool (parse_bool_string s))
  | some .timeZone, s =>
      if timezone_db.contains s then .ok (Value.tz s)
      else .error (.unknownTimeZoneError s)
  | some .commands, s => .ok (parse_commands s)
  | some .intCoerce, s =>
      match pyInt s with
      | some n => .ok (Value.int n)
      | Option.none => .error (.valueError s)
  | some .pathExpand, s => .ok (Value.str (expandPath s))

/-- One schema entry `(option, default, filter_)`; a `default` of `none`
models Python `None`, i.e. a required option. -/
structure FieldSpec where
  option : String
  default : Option Value
  filter : Option FilterId
deriving DecidableEq

/-- `DefaultSection._schema`. -/
def defaultSchema : List FieldSpec :=
  [⟨"debug", some (Value.bool false), some .boolStr⟩,
   ⟨"default_command", some (Value.str "calendar"), some .commands⟩,
   ⟨"default_calendar", some (Value.bool true), Option.none⟩]

/-- `LocaleSection._schema`. -/
def localeSchema : List FieldSpec :=
  [⟨"local_timezone", Option.none, some .timeZone⟩,
   ⟨"default_timezone", Option.none, some .timeZone⟩,
   ⟨"timeformat", Option.none, Option.none⟩,
   ⟨"dateformat", Option.none, Option.none⟩,
   ⟨"longdateformat", Option.none, Option.none⟩,
   ⟨"datetimeformat", Option.none, Option.none⟩,
   ⟨"longdatetimeformat", Option.none, Option.none⟩,
   ⟨"firstweekday", some (Value.int 0), some .intCoerce⟩,
   ⟨"encoding", some (Value.str "utf-8"), Option.none⟩,
   ⟨"unicode_symbols", some (Value.bool true), some .boolStr⟩]

/-- Modelled from the spec: `xdg.BaseDirectory.xdg_cache_home` (external
library, environment-dependent); the spec's default sqlite path is
`<cache-dir>/khal/khal.db`. -/
def xdg_cache_home : String := "~/.cache"

/-- `SQLiteSection._schema`. -/
def sqliteSchema : List FieldSpec :=
  [⟨"path", some (Value.str (xdg_cache_home ++ "/khal/khal.db")), some .pathExpand⟩]

/-- `CalendarSection._schema`. -/
def calendarSchema : List FieldSpec :=
  [⟨"path", Option.none, some .pathExpand⟩,
   ⟨"readonly", some (Value.bool false), some .boolStr⟩,
   ⟨"color", some (Value.str ""), Option.none⟩]

/-- The four registered section kinds (`ConfigParser._sections`). -/
inductive SchemaId where
  | defaultS
  | localeS
  | sqliteS
  | calendarS
deriving DecidableEq

/-- Schema of each section kind. -/
def schemaOf : SchemaId → List FieldSpec
  | .defaultS => defaultSchema
  | .localeS => localeSchema
  | .sqliteS => sqliteSchema
  | .calendarS => calendarSchema

/-- `Section.group` of each section kind. -/
def groupOf : SchemaId → String
  | .defaultS => "default"
  | .localeS => "locale"
  | .sqliteS => "sqlite"
  | .calendarS => "calendars"

/-- `Section.is_collection`: only `CalendarSection` overrides it to `True`. -/
def isCollection : SchemaId → Bool
  | .calendarS => true
  | _ => false

/-- `CalendarSection.matches`: `re.match('calendar (?P<name>.*)', name, re.I)`
succeeds iff the name starts with `calendar ` case-insensitively. -/
def calendarMatch (name : String) : Bool :=
  pyLower (strTake name 9) = "calendar "

/-- The `name` group captured by `CalendarSection.matches`: the text after the
`calendar ` prefix, verbatim (`.` does not cross a newline, and section
headers are single lines). -/
def calendarCapture (name : String) : String :=
  ⟨(name.data.drop 9).takeWhile (fun c => c ≠ '\n')⟩

/-- `ConfigParser._get_section_parser`: try the registry in order
(Default, Locale, Sqlite, Calendar); the first match wins.  For a calendar
match the captured name (stored into `_parsed['name']` by `matches`) is
returned alongside. -/
def matchSection (name : String) : Option (SchemaId × Option String) :=
  if pyLower name = "default" then some (.defaultS, Option.none)
  else if pyLower name = "locale" then some (.localeS, Option.none)
  else if pyLower name = "sqlite" then some (.sqliteS, Option.none)
  else if calendarMatch name then some (.calendarS, some (calendarCapture name))
  else Option.none

/-- A parsed section's value dictionary (`Section._parsed`). -/
abbrev PDict := List (String × Value)

/-- `RawConfigParser.get`: raises a `ConfigParserError` (`NoOptionError`)
when the option is absent. -/
def getOpt (opts : List (String × String)) (key : String) : Except PyExc String :=
  match lookupKey key opts with
  | some v => .ok v
  | Option.none => .error .configParserError

/-- The value computation `filter_(self._parser.get(section, option))` for one
field: a missing option raises `ConfigParserError`; a coercion may raise its
own exception. -/
def rawField (f : FieldSpec) (opts : List (String × String)) : Except PyExc Value :=
  match getOpt opts f.option with
  | .ok raw => applyFilter f.filter raw
  | .error e => .error e

/-- One iteration of the loop in `Section.parse`: only `ConfigParserError` is
caught (then the default is stored, and a missing default marks the field
failed); any other exception propagates.  Returns the updated `_parsed`, the
section's options after `remove_option`, and whether this field failed. -/
def fieldStep (f : FieldSpec) (parsed : PDict) (opts : List (String × String)) :
    Except PyExc (PDict × List (String × String) × Bool) :=
  match rawField f opts with
  | .ok v => .ok (dictSet parsed f.option v, removeKey f.option opts, false)
  | .error .configParserError =>
      .ok (dictSet parsed f.option (f.default.getD Value.none),
           removeKey f.option opts, f.default.isNone)
  | .error e => .error e

/-- The field loop of `Section.parse`, threading `_parsed`, the section's
remaining options, and the `failed` flag. -/
def parseFields (schema : List FieldSpec) (parsed : PDict)
    (opts : List (String × String)) (failed : Bool) :
    Except PyExc (PDict × List (String × String) × Bool) :=
  match schema with
  | [] => .ok (parsed, opts, failed)
  | f :: rest =>
    match fieldStep f parsed opts with
    | .error e => .error e
    | .ok (p', o', fl) => parseFields rest p' o' (failed || fl)

/-- `Section.parse`: run the field loop; if any field failed return `None`,
else return the parsed namespace.  `initParsed` is the `_parsed` dict as it
stands when `parse` is called (it carries the captured calendar name). -/
def sectionParse (schema : List FieldSpec) (initParsed : PDict)
    (opts : List (String × String)) :
    Except PyExc (Option PDict × List (String × String)) :=
  match parseFields schema initParsed opts false with
  | .error e => .error e
  | .ok (parsed, opts', failed) =>
      .ok (if failed then Option.none else some parsed, opts')

/-- A slot of the assembled `items` dict: a single parsed namespace, or the
aggregated list of a collection group. -/
inductive Item where
  | single (ns : PDict)
  | coll (entries : List PDict)
deriving DecidableEq

/-- The assembled `items` dict of `ConfigParser.parse_config`. -/
abbrev Items := List (String × Item)

/-- The `_parsed` dict as prepared by `matches` before `parse` runs: the
calendar matcher stores the captured name under `'name'`. -/
def initParsed : Option String → PDict
  | some n => [("name", Value.str n)]
  | Option.none => []

/-- The collection branch of `parse_config`: `items.setdefault-style` create
plus `append`.  A `single` already stored under the group would make Python's
`.append` attribute access fail; that state is unreachable here because only
the collection branch ever writes `"calendars"`. -/
def appendColl (items : Items) (group : String) (ns : PDict) : Except PyExc Items :=
  match lookupKey group items with
  | some (Item.coll es) => .ok (dictSet items group (Item.coll (es ++ [ns])))
  | some (Item.single _) => .error .attributeError
  | Option.none => .ok (dictSet items group (Item.coll [ns]))

/-- One iteration of the section loop of `parse_config`: match the section,
skip it with a warning if unmatched, run `parse`, record the result (setting
the overall `failed` flag on a failed section), and return the section's
post-parse option list (for the leftover warnings). -/
def stepSection (s : RawSection) (items : Items) (failed : Bool) :
    Except PyExc (Items × Bool × RawSection) :=
  match matchSection s.1 with
  | Option.none => .ok (items, failed, s)
  | some (sid, cap) =>
    match sectionParse (schemaOf sid) (initParsed cap) s.2 with
    | .error e => .error e
    | .ok (Option.none, opts') => .ok (items, true, (s.1, opts'))
    | .ok (some ns, opts') =>
        if isCollection sid then
          match appendColl items (groupOf sid) ns with
          | .error e => .error e
          | .ok items' => .ok (items', failed, (s.1, opts'))
        else
          .ok (dictSet items (groupOf sid) (Item.single ns), failed, (s.1, opts'))

/-- The section loop of `parse_config`, over all raw sections in file order;
also returns the post-parse file state consulted by `warn_leftovers`. -/
def assemble : Conf → Items → Bool → Except PyExc (Items × Bool × Conf)
  | [], items, failed => .ok (items, failed, [])
  | s :: rest, items, failed =>
    match stepSection s items failed with
    | .error e => .error e
    | .ok (items', failed', s') =>
      match assemble rest items' failed' with
      | .error e => .error e
      | .ok (itemsF, failedF, rest') => .ok (itemsF, failedF, s' :: rest')

/-- Group names of `ConfigParser._required_sections`, in declared order. -/
def required_groups : List String := ["default", "locale", "calendars"]

/-- `ConfigParser.check_required`: `True` (failed) iff some required group is
missing from `items`. -/
def check_required (items : Items) : Bool :=
  required_groups.any (fun g => (lookupKey g items).isNone)

/-- `ConfigParser.warn_leftovers`: the `(section, option)` pairs warned about,
read off the post-parse file state, in order. -/
def warn_leftovers (rest : Conf) : List (String × String) :=
  rest.flatMap (fun s => s.2.map (fun kv => (s.1, kv.1)))

/-- `ConfigParser.parse_config`, from the post-read state (the file was
readable and syntactically well formed; otherwise the source returns `None`
up front).  `Except.error` models an exception escaping `parse_config`. -/
def parse_config (file : Conf) : Except PyExc (Option Items) :=
  match assemble file [] false with
  | .error e => .error e
  | .ok (items, failed, _) =>
      .ok (if check_required items || failed then Option.none else some items)

/-- `Namespace.__getattribute__` on a parsed section: a missing key raises
`AttributeError`. -/
def getattrNs (ns : PDict) (k : String) : Except PyExc Value :=
  match lookupKey k ns with
  | some v => .ok v
  | Option.none => .error .attributeError

/-- `Namespace.__getattribute__` on the assembled configuration. -/
def getattrItems (items : Items) (k : String) : Except PyExc Item :=
  match lookupKey k items with
  | some v => .ok v
  | Option.none => .error .attributeError

/-- The list comprehension `[cal.name for cal in conf.calendars]`: each
entry's `name` attribute, any missing one raising `AttributeError`. -/
def calNames : List PDict → Except PyExc (List Value)
  | [] => .ok []
  | e :: rest =>
    match getattrNs e "name" with
    | .error er => .error er
    | .ok n =>
      match calNames rest with
      | .error er => .error er
      | .ok ns => .ok (n :: ns)

/-- `validate(conf, logger)`.  `conf` is the result of `parse_config`, so it
may be Python `None`: attribute access on `None` raises `AttributeError`.
`cal_name is True` is identity with the `True` singleton, modelled as equality
with `Value.bool true` (no other value models Python `True`).  The
`Item.single`/empty cases on `"calendars"` mirror the exceptions Python would
raise there (`[0]` on a dict-backed namespace, indexing an empty list); they
are unreachable for configurations assembled by `parse_config`. -/
def validate (conf : Option Items) : Except PyExc (Option Items) :=
  match conf with
  | Option.none => .error .attributeError
  | some items =>
    match getattrItems items "default" with
    | .error e => .error e
    | .ok (Item.coll _) => .error .attributeError
    | .ok (Item.single dns) =>
      match getattrNs dns "default_calendar" with
      | .error e => .error e
      | .ok calName =>
        if calName = Value.bool true then
          match getattrItems items "calendars" with
          | .error e => .error e
          | .ok (Item.single _) => .error .keyError
          | .ok (Item.coll []) => .error .indexError
          | .ok (Item.coll (e :: _)) =>
            match getattrNs e "name" with
            | .error er => .error er
            | .ok nm =>
                .ok (some (dictSet items "default"
                  (Item.single (dictSet dns "default_calendar" nm))))
        else
          match getattrItems items "calendars" with
          | .error e => .error e
          | .ok (Item.single _) => .error .attributeError
          | .ok (Item.coll es) =>
            match calNames es with
            | .error er => .error er
            | .ok names =>
                if names.contains calName then .ok (some items) else .ok Option.none

/-- The load sequence of `main_khal`:
`conf = ConfigParser().parse_config(...)` followed by
`conf = validate(conf, logger)`; the `if conf is None` exit guard runs only
if both complete without an exception. -/
def main_load (file : Conf) : Except PyExc (Option Items) :=
  match parse_config file with
  | .error e => .error e
  | .ok conf => validate conf


/-! Association-list lemmas. -/

theorem lookup_dictSet_self {α : Type} (d : List (String × α)) (k : String) (v : α) :
    lookupKey k (dictSet d k v) = some v := by
  induction d with
  | nil => simp [dictSet, lookupKey]
  | cons hd tl ih =>
    obtain ⟨k', v'⟩ := hd
    by_cases h : k' = k
    · simp [dictSet, h, lookupKey]
    · simp [dictSet, h, lookupKey, ih]

theorem lookup_dictSet_ne {α : Type} (d : List (String × α)) (k k' : String) (v : α)
    (h : k' ≠ k) : lookupKey k (dictSet d k' v) = lookupKey k d := by
  induction d with
  | nil => simp [dictSet, lookupKey, h]
  | cons hd tl ih =>
    obtain ⟨a, b⟩ := hd
    by_cases ha : a = k'
    · subst ha
      simp [dictSet, lookupKey, h]
    · simp [dictSet, ha, lookupKey, ih]

theorem lookup_removeKey_self {α : Type} (k : String) (l : List (String × α)) :
    lookupKey k (removeKey k l) = Option.none := by
  induction l with
  | nil => simp [removeKey, lookupKey]
  | cons hd tl ih =>
    obtain ⟨a, b⟩ := hd
    by_cases ha : a = k
    · subst ha
      simpa [removeKey] using ih
    · simp [removeKey, ha, lookupKey, ih]

theorem lookup_removeKey_ne {α : Type} (k k' : String) (l : List (String × α))
    (h : k' ≠ k) : lookupKey k (removeKey k' l) = lookupKey k l := by
  induction l with
  | nil => simp [removeKey]
  | cons hd tl ih =>
    obtain ⟨a, b⟩ := hd
    by_cases ha : a = k'
    · subst ha
      simp [removeKey, lookupKey, h, ih]
    · simp [removeKey, ha, lookupKey, ih]

theorem removeKey_eq_filter {α : Type} (k : String) (l : List (String × α)) :
    removeKey k l = l.filter (fun kv => decide (kv.1 ≠ k)) := by
  induction l with
  | nil => simp [removeKey]
  | cons hd tl ih =>
    obtain ⟨a, b⟩ := hd
    by_cases ha : a = k
    · simp [removeKey, ha, List.filter, ih]
    · simp [removeKey, ha, List.filter, ih]

theorem lookupKey_append_ne {α : Type} (k : String) (l : List (String × α))
    (e : String × α) (h : e.1 ≠ k) :
    lookupKey k (l ++ [e]) = lookupKey k l := by
  induction l with
  | nil => simp [lookupKey, h]
  | cons hd tl ih =>
    obtain ⟨a, b⟩ := hd
    by_cases hk : a = k
    · simp [lookupKey, hk]
    · simp [lookupKey, hk, ih]

theorem removeKey_append_ne {α : Type} (k : String) (l : List (String × α))
    (e : String × α) (h : e.1 ≠ k) :
    removeKey k (l ++ [e]) = removeKey k l ++ [e] := by
  induction l with
  | nil =>
    have : ¬ e.1 = k := h
    simp [removeKey, this]
  | cons hd tl ih =>
    obtain ⟨a, b⟩ := hd
    by_cases hk : a = k
    · simp [removeKey, hk, ih]
    · simp [removeKey, hk, ih]

theorem keys_dictSet {α : Type} (d : List (String × α)) (k : String) (v : α) :
    (dictSet d k v).map Prod.fst =
      if k ∈ d.map Prod.fst then d.map Prod.fst else d.map Prod.fst ++ [k] := by
  induction d with
  | nil => simp [dictSet]
  | cons hd tl ih =>
    obtain ⟨a, b⟩ := hd
    by_cases ha : a = k
    · subst ha
      simp [dictSet]
    · have hne : ¬ k = a := fun hc => ha hc.symm
      by_cases hm : k ∈ tl.map Prod.fst
      · simp [dictSet, ha, ih, hm, hne]
      · simp [dictSet, ha, ih, hm, hne]

theorem keys_dictSet_nodup {α : Type} (d : List (String × α)) (k : String) (v : α)
    (h : (d.map Prod.fst).Nodup) : ((dictSet d k v).map Prod.fst).Nodup := by
  rw [keys_dictSet]
  by_cases hm : k ∈ d.map Prod.fst
  · simpa [hm] using h
  · simp only [hm, if_false]
    simp [List.nodup_append, h, List.disjoint_singleton, hm]

/-! Lemmas about the field loop of `Section.parse`. -/

/-- Predicate for options not consumed by any field of a schema. -/
def notSchemaOpt (schema : List FieldSpec) (kv : String × String) : Bool :=
  schema.all (fun f => decide (kv.1 ≠ f.option))

theorem fieldStep_ok (f : FieldSpec) (p : PDict) (opts : List (String × String))
    {p₁ o₁ fl} (h : fieldStep f p opts = .ok (p₁, o₁, fl)) :
    o₁ = removeKey f.option opts ∧ ∃ v, p₁ = dictSet p f.option v := by
  unfold fieldStep at h
  cases hr : rawField f opts with
  | ok v =>
    rw [hr] at h
    simp only [Except.ok.injEq, Prod.mk.injEq] at h
    exact ⟨h.2.1.symm, v, h.1.symm⟩
  | error e =>
    rw [hr] at h
    cases e with
    | configParserError =>
      simp only [Except.ok.injEq, Prod.mk.injEq] at h
      exact ⟨h.2.1.symm, f.default.getD Value.none, h.1.symm⟩
    | unknownTimeZoneError tz => simp at h
    | valueError msg => simp at h
    | attributeError => simp at h
    | indexError => simp at h
    | keyError => simp at h

theorem parseFields_opts (schema : List FieldSpec) :
    ∀ p opts failed p' o' f',
    parseFields schema p opts failed = .ok (p', o', f') →
    o' = opts.filter (fun kv => notSchemaOpt schema kv) := by
  induction schema with
  | nil =>
    intro p opts failed p' o' f' h
    simp only [parseFields, Except.ok.injEq, Prod.mk.injEq] at h
    obtain ⟨-, h2, -⟩ := h
    simp [← h2, notSchemaOpt]
  | cons f rest ih =>
    intro p opts failed p' o' f' h
    simp only [parseFields] at h
    cases hs : fieldStep f p opts with
    | error e => rw [hs] at h; exact absurd h (by simp)
    | ok trip =>
      obtain ⟨p₁, o₁, fl⟩ := trip
      rw [hs] at h
      obtain ⟨ho, v, hp⟩ := fieldStep_ok f p opts hs
      have h' := ih p₁ o₁ (failed || fl) p' o' f' h
      rw [h', ho, removeKey_eq_filter, List.filter_filter]
      have hpred : (fun kv => notSchemaOpt rest kv && decide (kv.1 ≠ f.option))
          = (fun kv => notSchemaOpt (f :: rest) kv) := by
        funext kv
        simp [notSchemaOpt, Bool.and_comm]
      rw [hpred]

theorem parseFields_lookup_preserved (schema : List FieldSpec) :
    ∀ p opts failed p' o' f' (k : String),
    (∀ f ∈ schema, f.option ≠ k) →
    parseFields schema p opts failed = .ok (p', o', f') →
    lookupKey k p' = lookupKey k p := by
  induction schema with
  | nil =>
    intro p opts failed p' o' f' k _ h
    simp only [parseFields, Except.ok.injEq, Prod.mk.injEq] at h
    rw [← h.1]
  | cons f rest ih =>
    intro p opts failed p' o' f' k hk h
    simp only [parseFields] at h
    cases hs : fieldStep f p opts with
    | error e => rw [hs] at h; exact absurd h (by simp)
    | ok trip =>
      obtain ⟨p₁, o₁, fl⟩ := trip
      rw [hs] at h
      obtain ⟨ho, v, hp⟩ := fieldStep_ok f p opts hs
      have h' := ih p₁ o₁ (failed || fl) p' o' f' k
        (fun g hg => hk g (List.mem_cons_of_mem f hg)) h
      rw [h', hp, lookup_dictSet_ne _ _ _ _ (hk f (List.mem_cons_self f rest))]

theorem parseFields_default_of_absent (pre : List FieldSpec) :
    ∀ (f : FieldSpec) (post : List FieldSpec) p opts failed p' o' f',
    lookupKey f.option opts = Option.none →
    (∀ g ∈ post, g.option ≠ f.option) →
    parseFields (pre ++ f :: post) p opts failed = .ok (p', o', f') →
    lookupKey f.option p' = some (f.default.getD Value.none) := by
  induction pre with
  | nil =>
    intro f post p opts failed p' o' f' habs hpost h
    simp only [List.nil_append, parseFields] at h
    have hfs : fieldStep f p opts =
        .ok (dictSet p f.option (f.default.getD Value.none),
             removeKey f.option opts, f.default.isNone) := by
      simp [fieldStep, rawField, getOpt, habs]
    rw [hfs] at h
    have := parseFields_lookup_preserved post _ _ _ _ _ _ f.option hpost h
    rw [this, lookup_dictSet_self]
  | cons g pre' ih =>
    intro f post p opts failed p' o' f' habs hpost h
    simp only [List.cons_append, parseFields] at h
    cases hs : fieldStep g p opts with
    | error e => rw [hs] at h; exact absurd h (by simp)
    | ok trip =>
      obtain ⟨p₁, o₁, fl⟩ := trip
      rw [hs] at h
      obtain ⟨ho, v, hp⟩ := fieldStep_ok g p opts hs
      have habs₁ : lookupKey f.option o₁ = Option.none := by
        rw [ho]
        by_cases hgo : g.option = f.option
        · rw [hgo, lookup_removeKey_self]
        · rw [lookup_removeKey_ne _ _ _ hgo, habs]
      exact ih f post p₁ o₁ (failed || fl) p' o' f' habs₁ hpost h

theorem fieldStep_append_extra (f : FieldSpec) (p : PDict)
    (opts : List (String × String)) (e : String × String) (h : f.option ≠ e.1) :
    fieldStep f p (opts ++ [e]) =
      match fieldStep f p opts with
      | .error er => .error er
      | .ok (p₁, o₁, fl) => .ok (p₁, o₁ ++ [e], fl) := by
  have hraw : rawField f (opts ++ [e]) = rawField f opts := by
    unfold rawField getOpt
    rw [lookupKey_append_ne _ _ _ (fun hc => h hc.symm)]
  have hrem : removeKey f.option (opts ++ [e]) = removeKey f.option opts ++ [e] :=
    removeKey_append_ne _ _ _ (fun hc => h hc.symm)
  unfold fieldStep
  rw [hraw, hrem]
  cases rawField f opts with
  | ok v => rfl
  | error er => cases er <;> rfl

theorem parseFields_append_extra (schema : List FieldSpec) :
    ∀ p opts failed (e : String × String),
    (∀ f ∈ schema, f.option ≠ e.1) →
    parseFields schema p (opts ++ [e]) failed =
      match parseFields schema p opts failed with
      | .error er => .error er
      | .ok (p', o', f') => .ok (p', o' ++ [e], f') := by
  induction schema with
  | nil => intro p opts failed e _; rfl
  | cons f rest ih =>
    intro p opts failed e he
    simp only [parseFields]
    rw [fieldStep_append_extra f p opts e (he f (List.mem_cons_self f rest))]
    cases hs : fieldStep f p opts with
    | error er => rfl
    | ok trip =>
      obtain ⟨p₁, o₁, fl⟩ := trip
      exact ih p₁ o₁ (failed || fl) e (fun g hg => he g (List.mem_cons_of_mem f hg))

/-! Section classification and assembly lemmas. -/

/-- A raw section that the assembler handles without recording a failure:
either no schema matches it (it is skipped with a warning) or its matched
schema's parse returns a namespace. -/
def sectionOK (s : RawSection) : Bool :=
  match matchSection s.1 with
  | Option.none => true
  | some (sid, cap) =>
    match sectionParse (schemaOf sid) (initParsed cap) s.2 with
    | .ok (some _, _) => true
    | _ => false

/-- A raw section whose parse does not raise an uncaught exception. -/
def sectionNoAbort (s : RawSection) : Bool :=
  match matchSection s.1 with
  | Option.none => true
  | some (sid, cap) =>
    match sectionParse (schemaOf sid) (initParsed cap) s.2 with
    | .error _ => false
    | .ok _ => true

/-- A raw section that successfully contributes a parsed namespace to the
group `g` of the assembled items. -/
def contributes (s : RawSection) (g : String) : Bool :=
  match matchSection s.1 with
  | Option.none => false
  | some (sid, cap) =>
    match sectionParse (schemaOf sid) (initParsed cap) s.2 with
    | .ok (some _, _) => decide (groupOf sid = g)
    | _ => false

/-- The parsed namespaces of the file's calendar sections, in file order. -/
def calendarEntries (file : Conf) : List PDict :=
  file.filterMap (fun s =>
    match matchSection s.1 with
    | some (SchemaId.calendarS, cap) =>
      match sectionParse calendarSchema (initParsed cap) s.2 with
      | .ok (some ns, _) => some ns
      | _ => Option.none
    | _ => Option.none)

/-- Whether a section header is owned by the calendar schema. -/
def isCalendarSection (name : String) : Bool :=
  match matchSection name with
  | some (SchemaId.calendarS, _) => true
  | _ => false

/-- The options of a raw section left over after the assembler's pass: all of
them for an unmatched section, the non-schema ones for a matched section. -/
def sectionLeftover (s : RawSection) : List (String × String) :=
  match matchSection s.1 with
  | Option.none => s.2
  | some (sid, _) => s.2.filter (fun kv => notSchemaOpt (schemaOf sid) kv)

/-- The `"calendars"` entry list of the assembled items (empty if absent). -/
def collOf (items : Items) : List PDict :=
  match lookupKey "calendars" items with
  | some (Item.coll es) => es
  | _ => []

theorem isCollection_iff (sid : SchemaId) :
    isCollection sid = true ↔ sid = SchemaId.calendarS := by
  cases sid <;> simp [isCollection]

theorem matchSection_calendar (name : String) (cap : Option String)
    (h : matchSection name = some (SchemaId.calendarS, cap)) :
    cap = some (calendarCapture name) := by
  unfold matchSection at h
  split_ifs at h <;> simp_all

theorem sectionParse_opts (schema : List FieldSpec) (init : PDict)
    (opts : List (String × String)) {r o'}
    (h : sectionParse schema init opts = .ok (r, o')) :
    o' = opts.filter (fun kv => notSchemaOpt schema kv) := by
  unfold sectionParse at h
  cases hp : parseFields schema init opts false with
  | error e => rw [hp] at h; exact absurd h (by simp)
  | ok trip =>
    obtain ⟨p, o, fl⟩ := trip
    rw [hp] at h
    simp only [Except.ok.injEq, Prod.mk.injEq] at h
    rw [← h.2]
    exact parseFields_opts schema init opts false p o fl hp

theorem sectionParse_append_extra (schema : List FieldSpec) (init : PDict)
    (opts : List (String × String)) (e : String × String)
    (he : ∀ f ∈ schema, f.option ≠ e.1) :
    sectionParse schema init (opts ++ [e]) =
      match sectionParse schema init opts with
      | .error er => .error er
      | .ok (r, o') => .ok (r, o' ++ [e]) := by
  unfold sectionParse
  rw [parseFields_append_extra schema init opts false e he]
  cases parseFields schema init opts false with
  | error er => rfl
  | ok trip => obtain ⟨p, o, fl⟩ := trip; rfl

theorem assemble_append (a b : Conf) : ∀ items failed,
    assemble (a ++ b) items failed =
      match assemble a items failed with
      | .error e => .error e
      | .ok (i, f, r) =>
        match assemble b i f with
        | .error e => .error e
        | .ok (i', f', r') => .ok (i', f', r ++ r') := by
  induction a with
  | nil =>
    intro items failed
    simp only [List.nil_append, assemble]
    cases assemble b items failed with
    | error e => rfl
    | ok t => obtain ⟨i, f, r⟩ := t; rfl
  | cons s rest ih =>
    intro items failed
    simp only [List.cons_append, assemble]
    cases stepSection s items failed with
    | error e => rfl
    | ok t =>
      obtain ⟨i₁, f₁, s'⟩ := t
      dsimp only
      rw [show rest.append b = rest ++ b from rfl, ih i₁ f₁]
      cases assemble rest i₁ f₁ with
      | error e => rfl
      | ok t' =>
        obtain ⟨i₂, f₂, r₂⟩ := t'
        dsimp only
        cases assemble b i₂ f₂ with
        | error e => rfl
        | ok t'' => obtain ⟨i₃, f₃, r₃⟩ := t''; rfl

theorem stepSection_unmatched (s : RawSection) (items : Items) (failed : Bool)
    (h : matchSection s.1 = Option.none) :
    stepSection s items failed = .ok (items, failed, s) := by
  simp [stepSection, h]

theorem appendColl_clean (items : Items) (ns : PDict)
    (hcc : ∀ it, lookupKey "calendars" items = some it → ∃ es, it = Item.coll es) :
    appendColl items "calendars" ns =
      .ok (dictSet items "calendars" (Item.coll (collOf items ++ [ns]))) := by
  unfold appendColl collOf
  cases hl : lookupKey "calendars" items with
  | none => simp
  | some it =>
    obtain ⟨es, rfl⟩ := hcc it hl
    simp

theorem assemble_inv (file : Conf) :
    ∀ items failed,
    (∀ s ∈ file, sectionOK s = true) →
    (∀ it, lookupKey "calendars" items = some it → ∃ es, it = Item.coll es) →
    ∃ items' rest,
      assemble file items failed = .ok (items', failed, rest) ∧
      collOf items' = collOf items ++ calendarEntries file ∧
      (∀ it, lookupKey "calendars" items' = some it → ∃ es, it = Item.coll es) ∧
      (∀ g, (lookupKey g items').isSome
          = ((lookupKey g items).isSome || file.any (fun s => contributes s g))) := by
  induction file with
  | nil =>
    intro items failed _ hcc
    exact ⟨items, [], rfl, by simp [calendarEntries], hcc, by simp⟩
  | cons s rest ih =>
    intro items failed hok hcc
    have hs := hok s (List.mem_cons_self s rest)
    have hok' := fun t ht => hok t (List.mem_cons_of_mem s ht)
    cases hm : matchSection s.1 with
    | none =>
      obtain ⟨i', r', ha, hcol, hcc', hsome⟩ := ih items failed hok' hcc
      refine ⟨i', s :: r', ?_, ?_, hcc', ?_⟩
      · simp [assemble, stepSection, hm, ha]
      · have hce : calendarEntries (s :: rest) = calendarEntries rest := by
          simp [calendarEntries, hm]
        rw [hce]
        exact hcol
      · intro g
        rw [hsome g]
        have hc : contributes s g = false := by simp [contributes, hm]
        simp [hc]
    | some pair =>
      obtain ⟨sid, cap⟩ := pair
      cases hp : sectionParse (schemaOf sid) (initParsed cap) s.2 with
      | error e => simp [sectionOK, hm, hp] at hs
      | ok pr =>
        obtain ⟨ro, opts'⟩ := pr
        cases ro with
        | none => simp [sectionOK, hm, hp] at hs
        | some ns =>
          by_cases hcal : sid = SchemaId.calendarS
          · subst hcal
            have happ := appendColl_clean items ns hcc
            set items₁ := dictSet items "calendars" (Item.coll (collOf items ++ [ns]))
              with hitems₁
            have hcc₁ : ∀ it, lookupKey "calendars" items₁ = some it →
                ∃ es, it = Item.coll es := by
              intro it hit
              rw [hitems₁, lookup_dictSet_self] at hit
              exact ⟨collOf items ++ [ns], by injection hit with h; exact h.symm⟩
            obtain ⟨i', r', ha, hcol', hcc', hsome⟩ := ih items₁ failed hok' hcc₁
            refine ⟨i', (s.1, opts') :: r', ?_, ?_, hcc', ?_⟩
            · simp [assemble, stepSection, hm, hp, isCollection, groupOf, happ, ha]
            · have hp' : sectionParse calendarSchema (initParsed cap) s.2
                  = Except.ok (some ns, opts') := hp
              have hce : calendarEntries (s :: rest) = ns :: calendarEntries rest := by
                simp [calendarEntries, hm, hp']
              have hco : collOf items₁ = collOf items ++ [ns] := by
                rw [hitems₁]; unfold collOf; rw [lookup_dictSet_self]
              rw [hce, hcol', hco]
              simp
            · intro g
              rw [hsome g]
              have hcontr : contributes s g = decide ("calendars" = g) := by
                simp [contributes, hm, hp, groupOf]
              by_cases hg : g = "calendars"
              · subst hg
                have h1 : (lookupKey "calendars" items₁).isSome = true := by
                  rw [hitems₁, lookup_dictSet_self]; rfl
                simp [h1, hcontr]
              · have h1 : lookupKey g items₁ = lookupKey g items := by
                  rw [hitems₁]
                  exact lookup_dictSet_ne _ _ _ _ (fun hc => hg hc.symm)
                have h2 : decide ("calendars" = g) = false := by
                  simp
                  exact fun hc => hg hc.symm
                simp [h1, hcontr, h2]
          · have hncol : isCollection sid = false := by
              cases sid with
              | calendarS => exact absurd rfl hcal
              | defaultS => rfl
              | localeS => rfl
              | sqliteS => rfl
            have hgne : groupOf sid ≠ "calendars" := by
              cases sid with
              | calendarS => exact absurd rfl hcal
              | defaultS => decide
              | localeS => decide
              | sqliteS => decide
            set items₁ := dictSet items (groupOf sid) (Item.single ns) with hitems₁
            have hcc₁ : ∀ it, lookupKey "calendars" items₁ = some it →
                ∃ es, it = Item.coll es := by
              intro it hit
              rw [hitems₁, lookup_dictSet_ne _ _ _ _ hgne] at hit
              exact hcc it hit
            obtain ⟨i', r', ha, hcol', hcc', hsome⟩ := ih items₁ failed hok' hcc₁
            refine ⟨i', (s.1, opts') :: r', ?_, ?_, hcc', ?_⟩
            · simp [assemble, stepSection, hm, hp, hncol, ha]
            · have hce : calendarEntries (s :: rest) = calendarEntries rest := by
                cases sid with
                | calendarS => exact absurd rfl hcal
                | defaultS => simp [calendarEntries, hm]
                | localeS => simp [calendarEntries, hm]
                | sqliteS => simp [calendarEntries, hm]
              have hco : collOf items₁ = collOf items := by
                rw [hitems₁]; unfold collOf
                rw [lookup_dictSet_ne _ _ _ _ hgne]
              rw [hce, hcol', hco]
            · intro g
              rw [hsome g]
              have hcontr : contributes s g = decide (groupOf sid = g) := by
                simp [contributes, hm, hp]
              by_cases hg : g = groupOf sid
              · have h1 : (lookupKey g items₁).isSome = true := by
                  rw [hitems₁, hg, lookup_dictSet_self]; rfl
                have h2 : decide (groupOf sid = g) = true := by
                  simp [hg]
                simp [h1, hcontr, h2]
              · have h1 : lookupKey g items₁ = lookupKey g items := by
                  rw [hitems₁]
                  exact lookup_dictSet_ne _ _ _ _ (fun hc => hg hc.symm)
                have h2 : decide (groupOf sid = g) = false := by
                  simp
                  exact fun hc => hg hc.symm
                simp [h1, hcontr, h2]

theorem stepSection_ok_sec (s : RawSection) (items : Items) (failed : Bool)
    {i f r} (h : stepSection s items failed = .ok (i, f, r)) :
    r = (s.1, sectionLeftover s) := by
  unfold stepSection at h
  cases hm : matchSection s.1 with
  | none =>
    rw [hm] at h
    dsimp only at h
    simp only [Except.ok.injEq, Prod.mk.injEq] at h
    rw [← h.2.2, sectionLeftover, hm]
  | some pair =>
    obtain ⟨sid, cap⟩ := pair
    rw [hm] at h
    dsimp only at h
    cases hp : sectionParse (schemaOf sid) (initParsed cap) s.2 with
    | error e => rw [hp] at h; exact absurd h (by simp)
    | ok pr =>
      obtain ⟨ro, opts'⟩ := pr
      rw [hp] at h
      have hopts := sectionParse_opts (schemaOf sid) (initParsed cap) s.2 hp
      cases ro with
      | none =>
        dsimp only at h
        simp only [Except.ok.injEq, Prod.mk.injEq] at h
        rw [← h.2.2, sectionLeftover, hm, hopts]
      | some ns =>
        dsimp only at h
        by_cases hcol : isCollection sid
        · rw [if_pos hcol] at h
          cases ha : appendColl items (groupOf sid) ns with
          | error e => rw [ha] at h; exact absurd h (by simp)
          | ok items₁ =>
            rw [ha] at h
            dsimp only at h
            simp only [Except.ok.injEq, Prod.mk.injEq] at h
            rw [← h.2.2, sectionLeftover, hm, hopts]
        · rw [if_neg hcol] at h
          simp only [Except.ok.injEq, Prod.mk.injEq] at h
          rw [← h.2.2, sectionLeftover, hm, hopts]

theorem stepSection_ok_items (s : RawSection) (items : Items) (failed : Bool)
    {i f r} (h : stepSection s items failed = .ok (i, f, r)) :
    i = items ∨ ∃ k v, i = dictSet items k v := by
  unfold stepSection at h
  cases hm : matchSection s.1 with
  | none =>
    rw [hm] at h
    dsimp only at h
    simp only [Except.ok.injEq, Prod.mk.injEq] at h
    exact Or.inl h.1.symm
  | some pair =>
    obtain ⟨sid, cap⟩ := pair
    rw [hm] at h
    dsimp only at h
    cases hp : sectionParse (schemaOf sid) (initParsed cap) s.2 with
    | error e => rw [hp] at h; exact absurd h (by simp)
    | ok pr =>
      obtain ⟨ro, opts'⟩ := pr
      rw [hp] at h
      cases ro with
      | none =>
        dsimp only at h
        simp only [Except.ok.injEq, Prod.mk.injEq] at h
        exact Or.inl h.1.symm
      | some ns =>
        dsimp only at h
        by_cases hcol : isCollection sid
        · rw [if_pos hcol] at h
          cases ha : appendColl items (groupOf sid) ns with
          | error e => rw [ha] at h; exact absurd h (by simp)
          | ok items₁ =>
            rw [ha] at h
            dsimp only at h
            simp only [Except.ok.injEq, Prod.mk.injEq] at h
            unfold appendColl at ha
            cases hl : lookupKey (groupOf sid) items with
            | none =>
              rw [hl] at ha
              dsimp only at ha
              simp only [Except.ok.injEq] at ha
              exact Or.inr ⟨groupOf sid, Item.coll [ns], by rw [← h.1, ← ha]⟩
            | some it =>
              cases it with
              | single ns' => rw [hl] at ha; exact absurd ha (by simp)
              | coll es =>
                rw [hl] at ha
                dsimp only at ha
                simp only [Except.ok.injEq] at ha
                exact Or.inr ⟨groupOf sid, Item.coll (es ++ [ns]), by rw [← h.1, ← ha]⟩
        · rw [if_neg hcol] at h
          simp only [Except.ok.injEq, Prod.mk.injEq] at h
          exact Or.inr ⟨groupOf sid, Item.single ns, h.1.symm⟩

theorem assemble_rest (file : Conf) :
    ∀ items failed items' failed' rest,
    assemble file items failed = .ok (items', failed', rest) →
    rest = file.map (fun s => (s.1, sectionLeftover s)) := by
  induction file with
  | nil =>
    intro items failed items' failed' rest h
    simp only [assemble, Except.ok.injEq, Prod.mk.injEq] at h
    rw [← h.2.2, List.map_nil]
  | cons s tl ih =>
    intro items failed items' failed' rest h
    simp only [assemble] at h
    cases hst : stepSection s items failed with
    | error e => rw [hst] at h; exact absurd h (by simp)
    | ok t =>
      obtain ⟨i₁, f₁, s'⟩ := t
      rw [hst] at h
      dsimp only at h
      cases ha : assemble tl i₁ f₁ with
      | error e => rw [ha] at h; exact absurd h (by simp)
      | ok t' =>
        obtain ⟨i₂, f₂, r₂⟩ := t'
        rw [ha] at h
        dsimp only at h
        simp only [Except.ok.injEq, Prod.mk.injEq] at h
        rw [← h.2.2, List.map_cons, stepSection_ok_sec s items failed hst,
            ih i₁ f₁ i₂ f₂ r₂ ha]

theorem assemble_keys_nodup (file : Conf) :
    ∀ items failed items' failed' rest,
    (items.map Prod.fst).Nodup →
    assemble file items failed = .ok (items', failed', rest) →
    (items'.map Prod.fst).Nodup := by
  induction file with
  | nil =>
    intro items failed items' failed' rest hnd h
    simp only [assemble, Except.ok.injEq, Prod.mk.injEq] at h
    rw [← h.1]
    exact hnd
  | cons s tl ih =>
    intro items failed items' failed' rest hnd h
    simp only [assemble] at h
    cases hst : stepSection s items failed with
    | error e => rw [hst] at h; exact absurd h (by simp)
    | ok t =>
      obtain ⟨i₁, f₁, s'⟩ := t
      rw [hst] at h
      dsimp only at h
      cases ha : assemble tl i₁ f₁ with
      | error e => rw [ha] at h; exact absurd h (by simp)
      | ok t' =>
        obtain ⟨i₂, f₂, r₂⟩ := t'
        rw [ha] at h
        dsimp only at h
        simp only [Except.ok.injEq, Prod.mk.injEq] at h
        have hnd₁ : (i₁.map Prod.fst).Nodup := by
          rcases stepSection_ok_items s items failed hst with heq | ⟨k, v, heq⟩
          · rw [heq]; exact hnd
          · rw [heq]; exact keys_dictSet_nodup items k v hnd
        rw [← h.1]
        exact ih i₁ f₁ i₂ f₂ r₂ hnd₁ ha

theorem stepSection_noncoll (s : RawSection) (sid : SchemaId) (ns : PDict)
    (opts' : List (String × String)) (items : Items) (failed : Bool)
    (hm : matchSection s.1 = some (sid, Option.none))
    (hncol : isCollection sid = false)
    (hp : sectionParse (schemaOf sid) (initParsed Option.none) s.2
        = .ok (some ns, opts')) :
    stepSection s items failed
      = .ok (dictSet items (groupOf sid) (Item.single ns), failed, (s.1, opts')) := by
  simp [stepSection, hm, hp, hncol]

theorem assemble_noabort (file : Conf) :
    ∀ items failed,
    (∀ s ∈ file, sectionNoAbort s = true) →
    (∀ it, lookupKey "calendars" items = some it → ∃ es, it = Item.coll es) →
    ∃ items' failed' rest,
      assemble file items failed = .ok (items', failed', rest) ∧
      (∀ it, lookupKey "calendars" items' = some it → ∃ es, it = Item.coll es) ∧
      (∀ g, (∀ s ∈ file, contributes s g = false) →
        lookupKey g items = Option.none → lookupKey g items' = Option.none) := by
  induction file with
  | nil =>
    intro items failed _ hcc
    exact ⟨items, failed, [], rfl, hcc, fun g _ h => h⟩
  | cons s rest ih =>
    intro items failed hok hcc
    have hs := hok s (List.mem_cons_self s rest)
    have hok' := fun t ht => hok t (List.mem_cons_of_mem s ht)
    cases hm : matchSection s.1 with
    | none =>
      obtain ⟨i', f', r', ha, hcc', hpres⟩ := ih items failed hok' hcc
      refine ⟨i', f', s :: r', by simp [assemble, stepSection, hm, ha], hcc', ?_⟩
      intro g hall hnone
      exact hpres g (fun t ht => hall t (List.mem_cons_of_mem s ht)) hnone
    | some pair =>
      obtain ⟨sid, cap⟩ := pair
      cases hp : sectionParse (schemaOf sid) (initParsed cap) s.2 with
      | error e => simp [sectionNoAbort, hm, hp] at hs
      | ok pr =>
        obtain ⟨ro, opts'⟩ := pr
        cases ro with
        | none =>
          obtain ⟨i', f', r', ha, hcc', hpres⟩ := ih items true hok' hcc
          refine ⟨i', f', (s.1, opts') :: r',
            by simp [assemble, stepSection, hm, hp, ha], hcc', ?_⟩
          intro g hall hnone
          exact hpres g (fun t ht => hall t (List.mem_cons_of_mem s ht)) hnone
        | some ns =>
          by_cases hcal : sid = SchemaId.calendarS
          · subst hcal
            have happ := appendColl_clean items ns hcc
            set items₁ := dictSet items "calendars" (Item.coll (collOf items ++ [ns]))
              with hitems₁
            have hcc₁ : ∀ it, lookupKey "calendars" items₁ = some it →
                ∃ es, it = Item.coll es := by
              intro it hit
              rw [hitems₁, lookup_dictSet_self] at hit
              exact ⟨collOf items ++ [ns], by injection hit with hh; exact hh.symm⟩
            obtain ⟨i', f', r', ha, hcc', hpres⟩ := ih items₁ failed hok' hcc₁
            refine ⟨i', f', (s.1, opts') :: r',
              by simp [assemble, stepSection, hm, hp, isCollection, groupOf, happ, ha],
              hcc', ?_⟩
            intro g hall hnone
            have hc : contributes s g = decide ("calendars" = g) := by
              simp [contributes, hm, hp, groupOf]
            have hg : "calendars" ≠ g := by
              intro hgg
              have := hall s (List.mem_cons_self s rest)
              rw [hc] at this
              simp [hgg] at this
            have hnone₁ : lookupKey g items₁ = Option.none := by
              rw [hitems₁, lookup_dictSet_ne _ _ _ _ hg, hnone]
            exact hpres g (fun t ht => hall t (List.mem_cons_of_mem s ht)) hnone₁
          · have hncol : isCollection sid = false := by
              cases sid with
              | calendarS => exact absurd rfl hcal
              | defaultS => rfl
              | localeS => rfl
              | sqliteS => rfl
            set items₁ := dictSet items (groupOf sid) (Item.single ns) with hitems₁
            have hgne : groupOf sid ≠ "calendars" := by
              cases sid with
              | calendarS => exact absurd rfl hcal
              | defaultS => decide
              | localeS => decide
              | sqliteS => decide
            have hcc₁ : ∀ it, lookupKey "calendars" items₁ = some it →
                ∃ es, it = Item.coll es := by
              intro it hit
              rw [hitems₁, lookup_dictSet_ne _ _ _ _ hgne] at hit
              exact hcc it hit
            obtain ⟨i', f', r', ha, hcc', hpres⟩ := ih items₁ failed hok' hcc₁
            refine ⟨i', f', (s.1, opts') :: r',
              by simp [assemble, stepSection, hm, hp, hncol, ha], hcc', ?_⟩
            intro g hall hnone
            have hc : contributes s g = decide (groupOf sid = g) := by
              simp [contributes, hm, hp]
            have hg : groupOf sid ≠ g := by
              intro hgg
              have := hall s (List.mem_cons_self s rest)
              rw [hc] at this
              simp [hgg] at this
            have hnone₁ : lookupKey g items₁ = Option.none := by
              rw [hitems₁, lookup_dictSet_ne _ _ _ _ hg, hnone]
            exact hpres g (fun t ht => hall t (List.mem_cons_of_mem s ht)) hnone₁

/-! Claim theorems. -/

/-- The items dict assembled by a successful pass of `parse_config`. -/
def assembledItems (file : Conf) : Items :=
  match assemble file [] false with
  | .ok (items, _, _) => items
  | .error _ => []

/-- The items/failed projection of the assembly (the two components that
determine `parse_config`'s return value). -/
def assembleIF (file : Conf) : Except PyExc (Items × Bool) :=
  match assemble file [] false with
  | .error e => .error e
  | .ok (i, f, _) => .ok (i, f)

theorem parse_config_eq_assembleIF (file : Conf) :
    parse_config file
      = match assembleIF file with
        | .error e => .error e
        | .ok (i, f) =>
            .ok (if check_required i || f then Option.none else some i) := by
  unfold parse_config assembleIF
  cases assemble file [] false with
  | error e => rfl
  | ok t => obtain ⟨i, f, r⟩ := t; rfl

/-- Claim C6: for every input string, boolean coercion never raises, and it
returns `True` exactly when the trimmed, lowercased form of the string is one
of `true`, `yes`, `1`, returning `False` for every other string. -/
theorem khal_bool_coercion (s : String) :
    applyFilter (some FilterId.boolStr) s = .ok (Value.bool (parse_bool_string s)) ∧
    (parse_bool_string s = true ↔
      (pyLower (pyStrip s) = "true" ∨ pyLower (pyStrip s) = "yes"
        ∨ pyLower (pyStrip s) = "1")) := by
  constructor
  · rfl
  · unfold parse_bool_string
    simp [List.contains_cons]

/-- Claim C3 (code-bug evidence): a `default` section whose `default_command`
value is outside the closed command list does NOT fail: `_parse_commands`
returns `None` without raising, `Section.parse` stores it and returns a
namespace, and `parse_config` still returns a configuration.  The source logs
an error for this value, so the intent is a failure, but the `failed` flag is
never set. -/
theorem khal_invalid_default_command_succeeds :
    sectionParse defaultSchema [] [("default_command", "garbage")]
      = .ok (some [("debug", Value.bool false), ("default_command", Value.none),
                   ("default_calendar", Value.bool true)], []) ∧
    parse_config
      [("default", [("default_command", "garbage")]),
       ("locale",
         [("local_timezone", "UTC"), ("default_timezone", "UTC"),
          ("timeformat", "a"), ("dateformat", "b"), ("longdateformat", "c"),
          ("datetimeformat", "d"), ("longdatetimeformat", "e")]),
       ("calendar home", [("path", "/tmp/cal")])]
      = .ok (some
          [("default", Item.single
             [("debug", Value.bool false), ("default_command", Value.none),
              ("default_calendar", Value.bool true)]),
           ("locale", Item.single
             [("local_timezone", Value.tz "UTC"),
              ("default_timezone", Value.tz "UTC"),
              ("timeformat", Value.str "a"), ("dateformat", Value.str "b"),
              ("longdateformat", Value.str "c"), ("datetimeformat", Value.str "d"),
              ("longdatetimeformat", Value.str "e"),
              ("firstweekday", Value.int 0), ("encoding", Value.str "utf-8"),
              ("unicode_symbols", Value.bool true)]),
           ("calendars", Item.coll
             [[("name", Value.str "home"), ("path", Value.str "/tmp/cal"),
               ("readonly", Value.bool false), ("color", Value.str "")]])]) := by
  exact ⟨by decide, by decide⟩

/-- Claim C9: when `parse_config` returns `None`, the following
`validate(conf, logger)` call in `main_khal` raises `AttributeError` on
`conf.default`, so the guarded `Invalid config file, exiting.` path is never
reached for parse failures; `validate` returns a value only for non-`None`
input. -/
theorem khal_validate_crashes_on_parse_failure (file : Conf)
    (h : parse_config file = .ok Option.none) :
    main_load file = .error PyExc.attributeError ∧
    validate Option.none = .error PyExc.attributeError := by
  constructor
  · unfold main_load
    rw [h]
    rfl
  · rfl

theorem khal_validate_crashes_on_parse_failure_witness :
    main_load ([] : Conf) = .error PyExc.attributeError ∧
    validate Option.none = .error PyExc.attributeError :=
  khal_validate_crashes_on_parse_failure [] (by decide)

/-- Claim C5 counterexample: a file whose `default` section is absent — the
claim's premise — need not make `parse_config` return `None` after scanning
every raw section: here the locale section's unresolvable timezone raises an
uncaught `UnknownTimeZoneError` mid-scan, so the claim as stated fails. -/
theorem khal_missing_required_counterexample :
    parse_config
      [("locale", [("local_timezone", "Moon/Base")]),
       ("calendar home", [("path", "/tmp/cal")])]
      = .error (PyExc.unknownTimeZoneError "Moon/Base") := by decide

/-- Claim C5 (amended): when no raw section successfully contributes a
`default` section, or none contributes a `locale` section, or none
contributes a calendar section (the section is absent or fails to parse),
and no section's parse raises an uncaught exception (such as an unresolvable
timezone), `parse_config` completes the scan of all raw sections and returns
`None`. -/
theorem khal_missing_required_section_fails (file : Conf)
    (hna : ∀ s ∈ file, sectionNoAbort s = true)
    (hmiss : (∀ s ∈ file, contributes s "default" = false)
      ∨ (∀ s ∈ file, contributes s "locale" = false)
      ∨ (∀ s ∈ file, contributes s "calendars" = false)) :
    parse_config file = .ok Option.none := by
  obtain ⟨items', failed', rest, ha, hcc', hpres⟩ :=
    assemble_noabort file [] false hna (fun it h => by simp [lookupKey] at h)
  unfold parse_config
  rw [ha]
  dsimp only
  have hck : check_required items' = true := by
    rcases hmiss with hmiss | hmiss | hmiss
    · have hnone := hpres "default" hmiss rfl
      simp [check_required, required_groups, hnone]
    · have hnone := hpres "locale" hmiss rfl
      simp [check_required, required_groups, hnone]
    · have hnone := hpres "calendars" hmiss rfl
      simp [check_required, required_groups, hnone]
  rw [hck]
  rfl

theorem khal_missing_required_section_fails_witness :
    parse_config
      [("locale",
         [("local_timezone", "UTC"), ("default_timezone", "UTC"),
          ("timeformat", "a"), ("dateformat", "b"), ("longdateformat", "c"),
          ("datetimeformat", "d"), ("longdatetimeformat", "e")]),
       ("calendar home", [("path", "/tmp/cal")])]
      = .ok Option.none :=
  khal_missing_required_section_fails _ (by decide) (Or.inl (by decide))

/-- Claim C10: a declared field whose option is absent from the raw section
gets the schema's default value stored verbatim — the coercion function is
not applied to it.  In particular an absent `default_calendar` is stored as
the Python boolean `True` and an absent `readonly` as `False`, not as coerced
strings. -/
theorem khal_defaults_stored_verbatim :
    (∀ (f : FieldSpec) (parsed : PDict) (opts : List (String × String)),
      lookupKey f.option opts = Option.none →
      fieldStep f parsed opts
        = .ok (dictSet parsed f.option (f.default.getD Value.none),
               removeKey f.option opts, f.default.isNone)) ∧
    (∀ opts ns o', lookupKey "default_calendar" opts = Option.none →
      sectionParse defaultSchema [] opts = .ok (some ns, o') →
      lookupKey "default_calendar" ns = some (Value.bool true)) ∧
    (∀ opts cap ns o', lookupKey "readonly" opts = Option.none →
      sectionParse calendarSchema (initParsed (some cap)) opts = .ok (some ns, o') →
      lookupKey "readonly" ns = some (Value.bool false)) := by
  refine ⟨?_, ?_, ?_⟩
  · intro f parsed opts habs
    simp [fieldStep, rawField, getOpt, habs]
  · intro opts ns o' habs hp
    unfold sectionParse at hp
    cases hpf : parseFields defaultSchema [] opts false with
    | error e => rw [hpf] at hp; exact absurd hp (by simp)
    | ok t =>
      obtain ⟨p, o, fl⟩ := t
      rw [hpf] at hp
      dsimp only at hp
      cases fl with
      | true => simp at hp
      | false =>
        simp at hp
        have hps : parseFields
            ([⟨"debug", some (Value.bool false), some FilterId.boolStr⟩,
              ⟨"default_command", some (Value.str "calendar"), some FilterId.commands⟩]
             ++ ⟨"default_calendar", some (Value.bool true), Option.none⟩ :: [])
            [] opts false = .ok (p, o, false) := hpf
        have hdef := parseFields_default_of_absent
          [⟨"debug", some (Value.bool false), some FilterId.boolStr⟩,
           ⟨"default_command", some (Value.str "calendar"), some FilterId.commands⟩]
          ⟨"default_calendar", some (Value.bool true), Option.none⟩ []
          [] opts false p o false habs
          (fun g hg => absurd hg (List.not_mem_nil g)) hps
        rw [hp.1] at hdef
        exact hdef
  · intro opts cap ns o' habs hp
    unfold sectionParse at hp
    cases hpf : parseFields calendarSchema (initParsed (some cap)) opts false with
    | error e => rw [hpf] at hp; exact absurd hp (by simp)
    | ok t =>
      obtain ⟨p, o, fl⟩ := t
      rw [hpf] at hp
      dsimp only at hp
      cases fl with
      | true => simp at hp
      | false =>
        simp at hp
        have hps : parseFields
            ([⟨"path", Option.none, some FilterId.pathExpand⟩]
             ++ ⟨"readonly", some (Value.bool false), some FilterId.boolStr⟩
               :: [⟨"color", some (Value.str ""), Option.none⟩])
            (initParsed (some cap)) opts false = .ok (p, o, false) := hpf
        have hdef := parseFields_default_of_absent
          [⟨"path", Option.none, some FilterId.pathExpand⟩]
          ⟨"readonly", some (Value.bool false), some FilterId.boolStr⟩
          [⟨"color", some (Value.str ""), Option.none⟩]
          (initParsed (some cap)) opts false p o false habs
          (by decide) hps
        rw [hp.1] at hdef
        exact hdef

theorem khal_defaults_stored_verbatim_witness :
    fieldStep ⟨"default_calendar", some (Value.bool true), Option.none⟩ [] []
      = .ok ([("default_calendar", Value.bool true)], [], false) ∧
    lookupKey "default_calendar"
      [("debug", Value.bool false), ("default_command", Value.str "calendar"),
       ("default_calendar", Value.bool true)] = some (Value.bool true) ∧
    lookupKey "readonly"
      [("name", Value.str "home"), ("path", Value.str "/tmp/cal"),
       ("readonly", Value.bool false), ("color", Value.str "")]
      = some (Value.bool false) :=
  ⟨khal_defaults_stored_verbatim.1
      ⟨"default_calendar", some (Value.bool true), Option.none⟩ [] [] (by decide),
   khal_defaults_stored_verbatim.2.1 []
      [("debug", Value.bool false), ("default_command", Value.str "calendar"),
       ("default_calendar", Value.bool true)] [] (by decide) (by decide),
   khal_defaults_stored_verbatim.2.2 [("path", "/tmp/cal")] "home"
      [("name", Value.str "home"), ("path", Value.str "/tmp/cal"),
       ("readonly", Value.bool false), ("color", Value.str "")] [] (by decide)
      (by decide)⟩

/-- Claim C2: on an assembled configuration whose `calendars` list is
non-empty, `validate` (a) rewrites a `default_calendar` holding the boolean
sentinel `True` to the first calendar's name and returns the configuration,
(b) returns the configuration unchanged when `default_calendar` is a string
matching some calendar's name, and (c) returns `None` when it is a string
matching no calendar's name. -/
theorem khal_validate_default_calendar (items : Items) (dns : PDict)
    (es : List PDict)
    (h1 : lookupKey "default" items = some (Item.single dns))
    (h2 : lookupKey "calendars" items = some (Item.coll es)) :
    (∀ e rest nm, es = e :: rest →
      lookupKey "default_calendar" dns = some (Value.bool true) →
      lookupKey "name" e = some nm →
      validate (some items)
        = .ok (some (dictSet items "default"
            (Item.single (dictSet dns "default_calendar" nm))))) ∧
    (∀ s names, lookupKey "default_calendar" dns = some (Value.str s) →
      calNames es = .ok names → names.contains (Value.str s) = true →
      validate (some items) = .ok (some items)) ∧
    (∀ s names, lookupKey "default_calendar" dns = some (Value.str s) →
      calNames es = .ok names → names.contains (Value.str s) = false →
      validate (some items) = .ok Option.none) := by
  refine ⟨?_, ?_, ?_⟩
  · intro e rest nm hes hdc hnm
    subst hes
    simp [validate, getattrItems, getattrNs, h1, h2, hdc, hnm]
  · intro s names hdc hcn hmem
    have hmem' : Value.str s ∈ names := by simpa using hmem
    simp [validate, getattrItems, getattrNs, h1, h2, hdc, hcn, hmem']
  · intro s names hdc hcn hmem
    have hmem' : Value.str s ∉ names := by simpa using hmem
    simp [validate, getattrItems, getattrNs, h1, h2, hdc, hcn, hmem']

theorem khal_validate_default_calendar_witness :
    validate (some [("default", Item.single [("default_calendar", Value.bool true)]),
                    ("calendars", Item.coll [[("name", Value.str "home")]])])
      = .ok (some [("default", Item.single [("default_calendar", Value.str "home")]),
                   ("calendars", Item.coll [[("name", Value.str "home")]])]) ∧
    validate (some [("default", Item.single [("default_calendar", Value.str "home")]),
                    ("calendars", Item.coll [[("name", Value.str "home")]])])
      = .ok (some [("default", Item.single [("default_calendar", Value.str "home")]),
                   ("calendars", Item.coll [[("name", Value.str "home")]])]) ∧
    validate (some [("default", Item.single [("default_calendar", Value.str "nope")]),
                    ("calendars", Item.coll [[("name", Value.str "home")]])])
      = .ok Option.none :=
  ⟨(khal_validate_default_calendar
      [("default", Item.single [("default_calendar", Value.bool true)]),
       ("calendars", Item.coll [[("name", Value.str "home")]])]
      [("default_calendar", Value.bool true)] [[("name", Value.str "home")]]
      (by decide) (by decide)).1
      [("name", Value.str "home")] [] (Value.str "home") rfl (by decide) (by decide),
   (khal_validate_default_calendar
      [("default", Item.single [("default_calendar", Value.str "home")]),
       ("calendars", Item.coll [[("name", Value.str "home")]])]
      [("default_calendar", Value.str "home")] [[("name", Value.str "home")]]
      (by decide) (by decide)).2.1
      "home" [Value.str "home"] (by decide) (by decide) (by decide),
   (khal_validate_default_calendar
      [("default", Item.single [("default_calendar", Value.str "nope")]),
       ("calendars", Item.coll [[("name", Value.str "home")]])]
      [("default_calendar", Value.str "nope")] [[("name", Value.str "home")]]
      (by decide) (by decide)).2.2
      "nope" [Value.str "home"] (by decide) (by decide) (by decide)⟩

/-- Claim C4 counterexample: an unresolvable `local_timezone` does NOT produce
a recorded per-field failure with the scan continuing — `pytz.timezone`
raises `UnknownTimeZoneError`, which is not a `ConfigParserError`, so it
escapes `Section.parse` and `parse_config` uncaught (the result is an
exception, not the `None` the claim predicts). -/
theorem khal_bad_timezone_counterexample :
    parse_config
      [("default", []),
       ("locale", [("local_timezone", "Moon/Base")]),
       ("calendar home", [("path", "/tmp/cal")])]
      = .error (PyExc.unknownTimeZoneError "Moon/Base") := by decide

/-- Claim C4 (amended): a locale section containing a `local_timezone` value
that does not resolve in the timezone database — or a resolvable (or absent)
`local_timezone` together with a `default_timezone` value that does not
resolve — makes the whole load abort with the uncaught
`UnknownTimeZoneError`: no per-field failure is recorded, the remaining raw
sections are never scanned, and `parse_config` propagates the exception
instead of returning `None`. -/
theorem khal_bad_timezone_aborts (pre post : Conf) (name : String)
    (opts : List (String × String)) (v : String)
    (hm : matchSection name = some (SchemaId.localeS, Option.none))
    (htz : timezone_db.contains v = false)
    {i f r} (ha : assemble pre [] false = .ok (i, f, r))
    (hv : lookupKey "local_timezone" opts = some v
      ∨ ((lookupKey "local_timezone" opts = Option.none
           ∨ (∃ w, lookupKey "local_timezone" opts = some w
                ∧ timezone_db.contains w = true))
         ∧ lookupKey "default_timezone" opts = some v)) :
    parse_config (pre ++ (name, opts) :: post)
      = .error (PyExc.unknownTimeZoneError v) := by
  have hnm : ¬ (v ∈ timezone_db) := by simpa using htz
  have hpf : parseFields localeSchema [] opts false
      = .error (PyExc.unknownTimeZoneError v) := by
    rcases hv with hv | ⟨hloc, hdef⟩
    · have hfs : fieldStep ⟨"local_timezone", Option.none, some FilterId.timeZone⟩ [] opts
          = .error (PyExc.unknownTimeZoneError v) := by
        simp [fieldStep, rawField, getOpt, hv, applyFilter, hnm]
      unfold localeSchema
      simp only [parseFields]
      rw [hfs]
    · obtain ⟨p₁, fl₁, hfs1⟩ : ∃ p₁ fl₁,
          fieldStep ⟨"local_timezone", Option.none, some FilterId.timeZone⟩ [] opts
            = .ok (p₁, removeKey "local_timezone" opts, fl₁) := by
        rcases hloc with hloc | ⟨w, hw, hwin⟩
        · exact ⟨[("local_timezone", Value.none)], true,
            by simp [fieldStep, rawField, getOpt, hloc, dictSet]⟩
        · have hmem : w ∈ timezone_db := by simpa using hwin
          exact ⟨[("local_timezone", Value.tz w)], false,
            by simp [fieldStep, rawField, getOpt, hw, applyFilter, hmem, dictSet]⟩
      have hdef' : lookupKey "default_timezone" (removeKey "local_timezone" opts)
          = some v := by
        rw [lookup_removeKey_ne _ _ _ (by decide), hdef]
      have hfs2 : fieldStep ⟨"default_timezone", Option.none, some FilterId.timeZone⟩
          p₁ (removeKey "local_timezone" opts)
          = .error (PyExc.unknownTimeZoneError v) := by
        simp [fieldStep, rawField, getOpt, hdef', applyFilter, hnm]
      unfold localeSchema
      simp only [parseFields]
      rw [hfs1]
      dsimp only
      rw [hfs2]
  have hsp : sectionParse localeSchema [] opts
      = .error (PyExc.unknownTimeZoneError v) := by
    unfold sectionParse
    rw [hpf]
  have hstep : ∀ items failed, stepSection (name, opts) items failed
      = .error (PyExc.unknownTimeZoneError v) := by
    intro items failed
    simp [stepSection, hm, schemaOf, initParsed, hsp]
  unfold parse_config
  rw [assemble_append, ha]
  dsimp only
  simp [assemble, hstep]

theorem khal_bad_timezone_aborts_witness :
    parse_config
      ([("default", [])] ++ ("locale", [("local_timezone", "Moon/Base")]) :: [])
      = .error (PyExc.unknownTimeZoneError "Moon/Base") ∧
    parse_config
      ([("default", [])] ++
        ("locale", [("local_timezone", "UTC"), ("default_timezone", "Moon/Base")]) :: [])
      = .error (PyExc.unknownTimeZoneError "Moon/Base") :=
  ⟨khal_bad_timezone_aborts [("default", [])] [] "locale"
      [("local_timezone", "Moon/Base")] "Moon/Base" (by decide) (by decide)
      (show assemble [("default", [])] [] false
          = Except.ok ([("default", Item.single
              [("debug", Value.bool false), ("default_command", Value.str "calendar"),
               ("default_calendar", Value.bool true)])], false, [("default", [])])
        by decide)
      (Or.inl (by decide)),
   khal_bad_timezone_aborts [("default", [])] [] "locale"
      [("local_timezone", "UTC"), ("default_timezone", "Moon/Base")] "Moon/Base"
      (by decide) (by decide)
      (show assemble [("default", [])] [] false
          = Except.ok ([("default", Item.single
              [("debug", Value.bool false), ("default_command", Value.str "calendar"),
               ("default_calendar", Value.bool true)])], false, [("default", [])])
        by decide)
      (Or.inr ⟨Or.inr ⟨"UTC", by decide, by decide⟩, by decide⟩)⟩

theorem assembleIF_insert_unmatched (pre post : Conf) (s : RawSection)
    (hm : matchSection s.1 = Option.none) :
    assembleIF (pre ++ s :: post) = assembleIF (pre ++ post) := by
  unfold assembleIF
  rw [assemble_append, assemble_append]
  cases ha : assemble pre [] false with
  | error e => rfl
  | ok t =>
    obtain ⟨i, f, r⟩ := t
    dsimp only
    simp only [assemble, stepSection_unmatched s i f hm]
    cases hb : assemble post i f with
    | error e => rfl
    | ok t' => obtain ⟨i', f', r'⟩ := t'; rfl

theorem assembleIF_extra_option (pre post : Conf) (name : String)
    (opts : List (String × String)) (extra : String × String) (sid : SchemaId)
    (cap : Option String) (hm : matchSection name = some (sid, cap))
    (he : ∀ fd ∈ schemaOf sid, fd.option ≠ extra.1) :
    assembleIF (pre ++ (name, opts ++ [extra]) :: post)
      = assembleIF (pre ++ (name, opts) :: post) := by
  unfold assembleIF
  rw [assemble_append, assemble_append]
  cases ha : assemble pre [] false with
  | error e => rfl
  | ok t =>
    obtain ⟨i, f, r⟩ := t
    dsimp only
    have hsp := sectionParse_append_extra (schemaOf sid) (initParsed cap) opts extra he
    simp only [assemble, stepSection, hm]
    rw [hsp]
    cases hp : sectionParse (schemaOf sid) (initParsed cap) opts with
    | error e => rfl
    | ok pr =>
      obtain ⟨ro, opts'⟩ := pr
      cases ro with
      | none =>
        dsimp only
        cases hb : assemble post i true with
        | error e => rfl
        | ok t' => obtain ⟨i', f', r'⟩ := t'; rfl
      | some ns =>
        by_cases hcol : isCollection sid
        · simp only [hcol, if_true]
          cases hap : appendColl i (groupOf sid) ns with
          | error e => rfl
          | ok i₁ =>
            dsimp only
            cases hb : assemble post i₁ f with
            | error e => rfl
            | ok t' => obtain ⟨i', f', r'⟩ := t'; rfl
        · simp only [Bool.not_eq_true] at hcol
          simp only [hcol, Bool.false_eq_true, if_false]
          cases hb : assemble post (dictSet i (groupOf sid) (Item.single ns)) f with
          | error e => rfl
          | ok t' => obtain ⟨i', f', r'⟩ := t'; rfl

theorem warn_leftovers_map (l : Conf) :
    warn_leftovers (l.map (fun s => (s.1, sectionLeftover s)))
      = l.flatMap (fun s => (sectionLeftover s).map (fun kv => (s.1, kv.1))) := by
  induction l with
  | nil => rfl
  | cons a tl ih =>
    simp only [List.map_cons, warn_leftovers, List.flatMap_cons] at ih ⊢
    rw [ih]

/-- Claim C7: (a) a raw section matching no schema never changes the outcome
of `parse_config` — it is only warned about; (b) an option of a matched
section that no schema field ever looks up never changes the outcome either;
(c) the leftover "unknown option" warnings list exactly the options of
unmatched sections plus the non-schema options of matched sections, once
each, in file order. -/
theorem khal_unknown_warn_only :
    (∀ pre post (s : RawSection), matchSection s.1 = Option.none →
      parse_config (pre ++ s :: post) = parse_config (pre ++ post)) ∧
    (∀ pre post name opts (extra : String × String) sid cap,
      matchSection name = some (sid, cap) →
      (∀ fd ∈ schemaOf sid, fd.option ≠ extra.1) →
      parse_config (pre ++ (name, opts ++ [extra]) :: post)
        = parse_config (pre ++ (name, opts) :: post)) ∧
    (∀ file items failed rest, assemble file [] false = .ok (items, failed, rest) →
      warn_leftovers rest
        = file.flatMap (fun s => (sectionLeftover s).map (fun kv => (s.1, kv.1)))) := by
  refine ⟨?_, ?_, ?_⟩
  · intro pre post s hm
    rw [parse_config_eq_assembleIF, parse_config_eq_assembleIF,
        assembleIF_insert_unmatched pre post s hm]
  · intro pre post name opts extra sid cap hm he
    rw [parse_config_eq_assembleIF, parse_config_eq_assembleIF,
        assembleIF_extra_option pre post name opts extra sid cap hm he]
  · intro file items failed rest ha
    rw [assemble_rest file [] false items failed rest ha, warn_leftovers_map]

theorem khal_unknown_warn_only_witness :
    (parse_config ([] ++ ("junk", [("k", "v")]) :: [("default", [])])
       = parse_config ([] ++ [("default", [])])) ∧
    (parse_config ([] ++ ("default", [("debug", "yes")] ++ [("surprise", "1")]) :: [])
       = parse_config ([] ++ ("default", [("debug", "yes")]) :: [])) ∧
    (warn_leftovers [("default", [("surprise", "1")])]
       = [(("default", [("surprise", "1")]) : RawSection)].flatMap
           (fun s => (sectionLeftover s).map (fun kv => (s.1, kv.1)))) :=
  ⟨khal_unknown_warn_only.1 [] [("default", [])] ("junk", [("k", "v")]) (by decide),
   khal_unknown_warn_only.2.1 [] [] "default" [("debug", "yes")] ("surprise", "1")
     SchemaId.defaultS Option.none (by decide) (by decide),
   khal_unknown_warn_only.2.2 [("default", [("surprise", "1")])]
     [("default", Item.single
        [("debug", Value.bool false), ("default_command", Value.str "calendar"),
         ("default_calendar", Value.bool true)])] false
     [("default", [("surprise", "1")])] (by decide)⟩

/-- Claim C8: non-collection groups occupy at most one slot (the assembled
items' keys are duplicate-free), and a later raw section matching a
non-collection schema that parses successfully overwrites whatever an earlier
section stored for that group, with the `failed` flag untouched. -/
theorem khal_noncollection_overwrite
    (file : Conf) (name : String) (opts : List (String × String))
    (sid : SchemaId) (ns : PDict) (opts' : List (String × String))
    (items : Items) (failed : Bool) (rest : Conf)
    (hm : matchSection name = some (sid, Option.none))
    (hncol : isCollection sid = false)
    (hp : sectionParse (schemaOf sid) (initParsed Option.none) opts
        = .ok (some ns, opts'))
    (ha : assemble file [] false = .ok (items, failed, rest)) :
    assemble (file ++ [(name, opts)]) [] false
      = .ok (dictSet items (groupOf sid) (Item.single ns), failed,
             rest ++ [(name, opts')]) ∧
    lookupKey (groupOf sid) (dictSet items (groupOf sid) (Item.single ns))
      = some (Item.single ns) ∧
    ((dictSet items (groupOf sid) (Item.single ns)).map Prod.fst).Nodup := by
  have hnd : (items.map Prod.fst).Nodup :=
    assemble_keys_nodup file [] false items failed rest (by simp) ha
  refine ⟨?_, lookup_dictSet_self items (groupOf sid) (Item.single ns),
    keys_dictSet_nodup items (groupOf sid) (Item.single ns) hnd⟩
  rw [assemble_append, ha]
  dsimp only
  have hstep := stepSection_noncoll (name, opts) sid ns opts' items failed hm hncol hp
  simp [assemble, hstep]

theorem khal_noncollection_overwrite_witness :
    assemble ([("default", [("debug", "yes")])] ++ [("Default", [])]) [] false
      = .ok (dictSet
          [("default", Item.single
            [("debug", Value.bool true), ("default_command", Value.str "calendar"),
             ("default_calendar", Value.bool true)])]
          "default"
          (Item.single
            [("debug", Value.bool false), ("default_command", Value.str "calendar"),
             ("default_calendar", Value.bool true)]),
          false, [("default", [])] ++ [("Default", [])]) ∧
    lookupKey "default" (dictSet
          [("default", Item.single
            [("debug", Value.bool true), ("default_command", Value.str "calendar"),
             ("default_calendar", Value.bool true)])]
          "default"
          (Item.single
            [("debug", Value.bool false), ("default_command", Value.str "calendar"),
             ("default_calendar", Value.bool true)]))
      = some (Item.single
          [("debug", Value.bool false), ("default_command", Value.str "calendar"),
           ("default_calendar", Value.bool true)]) ∧
    ((dictSet
          [("default", Item.single
            [("debug", Value.bool true), ("default_command", Value.str "calendar"),
             ("default_calendar", Value.bool true)])]
          "default"
          (Item.single
            [("debug", Value.bool false), ("default_command", Value.str "calendar"),
             ("default_calendar", Value.bool true)])).map Prod.fst).Nodup :=
  khal_noncollection_overwrite [("default", [("debug", "yes")])] "Default" []
    SchemaId.defaultS
    [("debug", Value.bool false), ("default_command", Value.str "calendar"),
     ("default_calendar", Value.bool true)] []
    [("default", Item.single
      [("debug", Value.bool true), ("default_command", Value.str "calendar"),
       ("default_calendar", Value.bool true)])]
    false [("default", [])] (by decide) (by decide) (by decide) (by decide)

theorem calendarEntries_names (file : Conf)
    (hok : ∀ s ∈ file, sectionOK s = true) :
    List.Forall₂ (fun (s : RawSection) ns =>
        lookupKey "name" ns = some (Value.str (calendarCapture s.1)))
      (file.filter (fun s => isCalendarSection s.1)) (calendarEntries file) := by
  induction file with
  | nil => exact List.Forall₂.nil
  | cons s rest ih =>
    have hs := hok s (List.mem_cons_self s rest)
    have ih' := ih (fun t ht => hok t (List.mem_cons_of_mem s ht))
    cases hm : matchSection s.1 with
    | none =>
      have hfil : isCalendarSection s.1 = false := by simp [isCalendarSection, hm]
      have hce : calendarEntries (s :: rest) = calendarEntries rest := by
        simp [calendarEntries, hm]
      simp only [List.filter_cons, hfil, Bool.false_eq_true, if_false, hce]
      exact ih'
    | some pair =>
      obtain ⟨sid, cap⟩ := pair
      cases sid with
      | defaultS =>
        have hfil : isCalendarSection s.1 = false := by simp [isCalendarSection, hm]
        have hce : calendarEntries (s :: rest) = calendarEntries rest := by
          simp [calendarEntries, hm]
        simp only [List.filter_cons, hfil, Bool.false_eq_true, if_false, hce]
        exact ih'
      | localeS =>
        have hfil : isCalendarSection s.1 = false := by simp [isCalendarSection, hm]
        have hce : calendarEntries (s :: rest) = calendarEntries rest := by
          simp [calendarEntries, hm]
        simp only [List.filter_cons, hfil, Bool.false_eq_true, if_false, hce]
        exact ih'
      | sqliteS =>
        have hfil : isCalendarSection s.1 = false := by simp [isCalendarSection, hm]
        have hce : calendarEntries (s :: rest) = calendarEntries rest := by
          simp [calendarEntries, hm]
        simp only [List.filter_cons, hfil, Bool.false_eq_true, if_false, hce]
        exact ih'
      | calendarS =>
        have hcap := matchSection_calendar s.1 cap hm
        subst hcap
        cases hp : sectionParse (schemaOf SchemaId.calendarS)
            (initParsed (some (calendarCapture s.1))) s.2 with
        | error e => simp [sectionOK, hm, hp] at hs
        | ok pr =>
          obtain ⟨ro, opts'⟩ := pr
          cases ro with
          | none => simp [sectionOK, hm, hp] at hs
          | some ns =>
            have hp' : sectionParse calendarSchema
                (initParsed (some (calendarCapture s.1))) s.2
                = .ok (some ns, opts') := hp
            have hfil : isCalendarSection s.1 = true := by
              simp [isCalendarSection, hm]
            have hce : calendarEntries (s :: rest) = ns :: calendarEntries rest := by
              simp [calendarEntries, hm, hp']
            have hname : lookupKey "name" ns
                = some (Value.str (calendarCapture s.1)) := by
              unfold sectionParse at hp'
              cases hpf : parseFields calendarSchema
                  (initParsed (some (calendarCapture s.1))) s.2 false with
              | error e => rw [hpf] at hp'; exact absurd hp' (by simp)
              | ok t =>
                obtain ⟨p, o, fl⟩ := t
                rw [hpf] at hp'
                dsimp only at hp'
                cases fl with
                | true => simp at hp'
                | false =>
                  simp at hp'
                  have hpres := parseFields_lookup_preserved calendarSchema
                    (initParsed (some (calendarCapture s.1))) s.2 false p o false
                    "name" (by decide) hpf
                  rw [hp'.1] at hpres
                  rw [hpres]
                  simp [initParsed, lookupKey]
            simp only [List.filter_cons, hfil, if_true, hce]
            exact List.Forall₂.cons hname ih'

/-- Claim C1: for a well-formed file — every section either matches no schema
or parses successfully, and some section successfully contributes each of
`default`, `locale`, and `calendars` — `parse_config` returns a
configuration whose `calendars` slot holds exactly one parsed entry per
calendar section, in file order, each carrying (under `name`) the identifier
captured case-insensitively from its `calendar <identifier>` header. -/
theorem khal_calendars_assembled (file : Conf)
    (hok : ∀ s ∈ file, sectionOK s = true)
    (hd : file.any (fun s => contributes s "default") = true)
    (hl : file.any (fun s => contributes s "locale") = true)
    (hc : file.any (fun s => contributes s "calendars") = true) :
    parse_config file = .ok (some (assembledItems file)) ∧
    lookupKey "calendars" (assembledItems file)
      = some (Item.coll (calendarEntries file)) ∧
    List.Forall₂ (fun (s : RawSection) ns =>
        lookupKey "name" ns = some (Value.str (calendarCapture s.1)))
      (file.filter (fun s => isCalendarSection s.1)) (calendarEntries file) := by
  obtain ⟨items', rest, ha, hcol, hcc', hsome⟩ :=
    assemble_inv file [] false hok (fun it h => by simp [lookupKey] at h)
  have hai : assembledItems file = items' := by
    unfold assembledItems
    rw [ha]
  have hds : (lookupKey "default" items').isSome = true := by
    rw [hsome "default"]
    simp [lookupKey, hd]
  have hls : (lookupKey "locale" items').isSome = true := by
    rw [hsome "locale"]
    simp [lookupKey, hl]
  have hcs : (lookupKey "calendars" items').isSome = true := by
    rw [hsome "calendars"]
    simp [lookupKey, hc]
  have hcollookup : lookupKey "calendars" items'
      = some (Item.coll (calendarEntries file)) := by
    cases hx : lookupKey "calendars" items' with
    | none => rw [hx] at hcs; simp at hcs
    | some it =>
      obtain ⟨es, rfl⟩ := hcc' it hx
      have hes : collOf items' = es := by
        unfold collOf
        rw [hx]
      rw [hcol] at hes
      simp only [collOf, lookupKey, List.nil_append] at hes
      rw [hes]
  refine ⟨?_, ?_, calendarEntries_names file hok⟩
  · rw [hai]
    unfold parse_config
    rw [ha]
    dsimp only
    have h1 : (lookupKey "default" items').isNone = false := by
      cases hx : lookupKey "default" items' with
      | none => rw [hx] at hds; simp at hds
      | some v => rfl
    have h2 : (lookupKey "locale" items').isNone = false := by
      cases hx : lookupKey "locale" items' with
      | none => rw [hx] at hls; simp at hls
      | some v => rfl
    have h3 : (lookupKey "calendars" items').isNone = false := by
      cases hx : lookupKey "calendars" items' with
      | none => rw [hx] at hcs; simp at hcs
      | some v => rfl
    have hck : check_required items' = false := by
      simp [check_required, required_groups, h1, h2, h3]
    rw [hck]
    rfl
  · rw [hai]
    exact hcollookup

def confFileC1 : Conf :=
  [("default", [("default_command", "agenda")]),
   ("locale",
     [("local_timezone", "UTC"), ("default_timezone", "UTC"),
      ("timeformat", "%H:%M"), ("dateformat", "%d.%m."),
      ("longdateformat", "%d.%m.%Y"), ("datetimeformat", "%d.%m. %H:%M"),
      ("longdatetimeformat", "%d.%m.%Y %H:%M")]),
   ("calendar home", [("path", "/tmp/cal")]),
   ("Calendar Work", [("path", "/tmp/work"), ("readonly", "True")])]

theorem khal_calendars_assembled_witness :
    parse_config confFileC1 = .ok (some (assembledItems confFileC1)) ∧
    lookupKey "calendars" (assembledItems confFileC1)
      = some (Item.coll (calendarEntries confFileC1)) ∧
    List.Forall₂ (fun (s : RawSection) ns =>
        lookupKey "name" ns = some (Value.str (calendarCapture s.1)))
      (confFileC1.filter (fun s => isCalendarSection s.1))
      (calendarEntries confFileC1) :=
  khal_calendars_assembled confFileC1 (by decide) (by decide) (by decide) (by decide)
